import Mathlib

set_option maxHeartbeats 1000000

/-!
Verification of `tensorflow_data_validation/statistics/stats_impl.py`.

The statistics protos (`statistics_pb2`) are modelled at the granularity the
code under verification reads: a `FeatureNameStatistics` message has a `name`
field and a oneof `stats` field holding either numeric or string statistics,
each of which carries an optional embedded `common_stats` sub-message with the
presence counts `num_non_missing` and `num_missing`.  Proto3 `MergeFrom`
semantics are modelled field by field: a non-default scalar in the source
overwrites the target, a present sub-message is merged recursively, and a set
oneof branch in the source replaces a differently-set branch in the target.

`_merge_dataset_feature_stats_protos` keeps a dict mapping feature names to
*references* to feature protos inside the input reports and calls `MergeFrom`
on those references, mutating the inputs in place.  The embedding therefore
threads the state of the input reports explicitly: the dict stores positions
into the (mutable) list of input feature lists, and the function returns both
the merged report and the final state of the inputs.
-/

/-- The fragment of the `CommonStatistics` proto read by the merge code:
the presence counts.  Proto3 scalar fields, default 0. -/
structure CommonStatistics where
  num_non_missing : Nat
  num_missing : Nat
  deriving DecidableEq, Repr

def CommonStatistics.empty : CommonStatistics :=
  { num_non_missing := 0, num_missing := 0 }

/-- Proto3 `MergeFrom` on scalar fields: a non-default (nonzero) source value
overwrites the target value. -/
def CommonStatistics.mergeFrom (t s : CommonStatistics) : CommonStatistics :=
  { num_non_missing :=
      if s.num_non_missing = 0 then t.num_non_missing else s.num_non_missing,
    num_missing :=
      if s.num_missing = 0 then t.num_missing else s.num_missing }

/-- The fragment of `NumericStatistics` read by the code: the optional
embedded `common_stats` sub-message. -/
structure NumericStatistics where
  common_stats : Option CommonStatistics
  deriving DecidableEq, Repr

def NumericStatistics.empty : NumericStatistics := { common_stats := none }

/-- Proto3 `MergeFrom`: a present sub-message is merged recursively into the
target's sub-message (created empty if absent). -/
def NumericStatistics.mergeFrom (t s : NumericStatistics) : NumericStatistics :=
  { common_stats :=
      match s.common_stats with
      | none => t.common_stats
      | some sc => some ((t.common_stats.getD CommonStatistics.empty).mergeFrom sc) }

/-- The fragment of `StringStatistics` read by the code: the optional embedded
`common_stats` sub-message. -/
structure StringStatistics where
  common_stats : Option CommonStatistics
  deriving DecidableEq, Repr

def StringStatistics.empty : StringStatistics := { common_stats := none }

def StringStatistics.mergeFrom (t s : StringStatistics) : StringStatistics :=
  { common_stats :=
      match s.common_stats with
      | none => t.common_stats
      | some sc => some ((t.common_stats.getD CommonStatistics.empty).mergeFrom sc) }

/-- The oneof `stats` field of `FeatureNameStatistics`: the mutually exclusive
specialization kind of a feature entry (numeric or string). -/
inductive FeatureStats where
  | num (s : NumericStatistics)
  | str (s : StringStatistics)
  deriving DecidableEq, Repr

/-- A per-feature statistics entry: `name` plus the oneof `stats` field
(`none` models an unset oneof). -/
structure FeatureNameStatistics where
  name : String
  stats : Option FeatureStats
  deriving DecidableEq, Repr

def FeatureNameStatistics.empty : FeatureNameStatistics :=
  { name := "", stats := none }

/-- Proto3 `MergeFrom` for `FeatureNameStatistics`.  The `name` scalar is
overwritten when the source name is non-default; for the oneof, a set source
branch is merged into the target's branch when the kinds agree, and otherwise
replaces the target's branch (merged into a fresh empty message), which is how
protobuf resolves a oneof kind mismatch. -/
def FeatureNameStatistics.MergeFrom (t s : FeatureNameStatistics) :
    FeatureNameStatistics :=
  { name := if s.name = "" then t.name else s.name,
    stats :=
      match s.stats with
      | none => t.stats
      | some (.num sn) =>
          match t.stats with
          | some (.num tn) => some (.num (tn.mergeFrom sn))
          | _ => some (.num (NumericStatistics.empty.mergeFrom sn))
      | some (.str ss) =>
          match t.stats with
          | some (.str ts) => some (.str (ts.mergeFrom ss))
          | _ => some (.str (StringStatistics.empty.mergeFrom ss)) }

/-- The `DatasetFeatureStatistics` proto: the repeated `features` field plus
the `num_examples` field (`none` models a never-assigned field). -/
structure DatasetFeatureStatistics where
  features : List FeatureNameStatistics
  num_examples : Option Nat
  deriving DecidableEq, Repr

/-- The `DatasetFeatureStatisticsList` proto: the repeated `datasets` field. -/
structure DatasetFeatureStatisticsList where
  datasets : List DatasetFeatureStatistics
  deriving DecidableEq, Repr

/-- Replace the element at index `j` by its image under `f` (no-op when out of
range); models an in-place update of one element of a Python list. -/
def modifyAt {α : Type} : List α → Nat → (α → α) → List α
  | [], _, _ => []
  | a :: t, 0, f => f a :: t
  | a :: t, j + 1, f => a :: modifyAt t j f

/-- The state of the merge loop of `_merge_dataset_feature_stats_protos`:
`donePrev` holds the (possibly already mutated) feature lists of the fully
processed input reports, `doneCur` the processed prefix of the current report,
and `stats_per_feature` the Python dict, mapping a feature name to the
position (report index, feature index) of the proto object stored for it. -/
structure MergeState where
  donePrev : List (List FeatureNameStatistics)
  doneCur : List FeatureNameStatistics
  stats_per_feature : List (String × Nat × Nat)
  deriving DecidableEq, Repr

/-- The heap view of the loop state: all processed feature lists, with the
current report's processed prefix last. -/
def MergeState.view (st : MergeState) : List (List FeatureNameStatistics) :=
  st.donePrev ++ [st.doneCur]

/-- Dereference a stored position. -/
def MergeState.getAt (st : MergeState) (i j : Nat) : FeatureNameStatistics :=
  ((st.view.getD i []).getD j FeatureNameStatistics.empty)

/-- Mutate the proto object at a stored position in place. -/
def MergeState.mutateAt (st : MergeState) (i j : Nat)
    (f : FeatureNameStatistics → FeatureNameStatistics) : MergeState :=
  if i < st.donePrev.length then
    { st with donePrev := modifyAt st.donePrev i (fun fs => modifyAt fs j f) }
  else
    { st with doneCur := modifyAt st.doneCur j f }

/-- Advance the iterator past the current feature proto (the object itself
stays inside its report). -/
def MergeState.pushCur (st : MergeState) (fsp : FeatureNameStatistics) :
    MergeState :=
  { st with doneCur := st.doneCur ++ [fsp] }

/-- One iteration of the inner loop of `_merge_dataset_feature_stats_protos`:
if the feature name is not yet a dict key, store a reference to this proto;
otherwise merge this proto into the referenced (aliased) proto in place. -/
def procFeature (st : MergeState) (feature_stats_proto : FeatureNameStatistics) :
    MergeState :=
  match st.stats_per_feature.lookup feature_stats_proto.name with
  | none =>
      MergeState.pushCur
        { st with stats_per_feature := st.stats_per_feature ++
            [(feature_stats_proto.name, st.donePrev.length, st.doneCur.length)] }
        feature_stats_proto
  | some (i, j) =>
      MergeState.pushCur
        (st.mutateAt i j (fun t => t.MergeFrom feature_stats_proto))
        feature_stats_proto

/-- Close the current report and move on to the next one. -/
def MergeState.rollReport (st : MergeState) : MergeState :=
  { donePrev := st.donePrev ++ [st.doneCur], doneCur := [],
    stats_per_feature := st.stats_per_feature }

/-- One iteration of the outer loop: process every feature proto of one input
report. -/
def procReport (st : MergeState) (features : List FeatureNameStatistics) :
    MergeState :=
  MergeState.rollReport (features.foldl procFeature st)

/-- The first (dict-building) loop of `_merge_dataset_feature_stats_protos`,
over the feature lists of all input reports. -/
def mergeLoop (feature_lists : List (List FeatureNameStatistics)) : MergeState :=
  feature_lists.foldl procReport { donePrev := [], doneCur := [], stats_per_feature := [] }

/-- `stats_per_feature.values()` after the dict-building loop: the merged
feature protos in dict (insertion) order. -/
def mergedFeatureValues (st : MergeState) : List FeatureNameStatistics :=
  st.stats_per_feature.map (fun e => st.getAt e.2.1 e.2.2)

/-- The sub-message the second loop inspects for `num_examples`:
`WhichOneof` selects `num_stats` when the oneof holds numeric statistics and
`string_stats` otherwise; accessing the unset `string_stats` branch yields an
empty message, whose `common_stats` field is unset. -/
def statsForNumExamples (fsp : FeatureNameStatistics) : Option CommonStatistics :=
  match fsp.stats with
  | some (.num ns) => ns.common_stats
  | some (.str ss) => ss.common_stats
  | none => StringStatistics.empty.common_stats

/-- One iteration of the second loop: copy the merged feature proto into the
result and, while `num_examples` is still unassigned, derive it from this
feature's common stats when present. -/
def mergeFinalizeStep (acc : List FeatureNameStatistics × Option Nat)
    (feature_stats_proto : FeatureNameStatistics) :
    List FeatureNameStatistics × Option Nat :=
  (acc.1 ++ [feature_stats_proto],
   match acc.2 with
   | some n => some n
   | none =>
       match statsForNumExamples feature_stats_proto with
       | some c => some (c.num_non_missing + c.num_missing)
       | none => none)

/-- The second loop of `_merge_dataset_feature_stats_protos`: build the result
proto from the merged per-feature values and derive `num_examples`. -/
def mergeFinalize (vals : List FeatureNameStatistics) : DatasetFeatureStatistics :=
  let r := vals.foldl mergeFinalizeStep ([], none)
  { features := r.1, num_examples := r.2 }

/-- The common stats of the first entry of the list whose inspected common
sub-record is present (used to state the `num_examples` derivation). -/
def firstCommonStats : List FeatureNameStatistics → Option CommonStatistics
  | [] => none
  | v :: rest =>
      match statsForNumExamples v with
      | some c => some c
      | none => firstCommonStats rest

/-- `_merge_dataset_feature_stats_protos`.  Returns the merged report paired
with the final state of the input reports (which the Python code mutates in
place through the references stored in `stats_per_feature`). -/
def _merge_dataset_feature_stats_protos
    (stats_protos : List DatasetFeatureStatistics) :
    DatasetFeatureStatistics × List DatasetFeatureStatistics :=
  let st := mergeLoop (stats_protos.map (fun p => p.features))
  (mergeFinalize (mergedFeatureValues st),
   List.zipWith (fun p fs => { p with features := fs }) stats_protos st.donePrev)

/-- `_make_dataset_feature_statistics_list_proto`: wrap the merged report as
the sole dataset of a `DatasetFeatureStatisticsList`. -/
def _make_dataset_feature_statistics_list_proto
    (stats_proto : DatasetFeatureStatistics) : DatasetFeatureStatisticsList :=
  { datasets := [stats_proto] }

/-- Append a name to an accumulator unless already present (first-occurrence
de-duplication step). -/
def insertName (acc : List String) (n : String) : List String :=
  if n ∈ acc then acc else acc ++ [n]

/-- First-occurrence de-duplication of a list of names. -/
def dedupFO (l : List String) : List String :=
  l.foldl insertName []

/-- The errors the statistics code can raise: the `TypeError` for a generator
of the wrong kind and the `KeyError` of an unguarded dict lookup. -/
inductive StatsError where
  | typeMismatch (className : String)
  | keyError (featureName : String)
  deriving DecidableEq, Repr

/-- A batch of examples in column form: a dict from feature name to column
(the column representation `C` is opaque to the dispatch code). -/
abbrev ExampleBatch (C : Type) := List (String × C)

/-- A statistics generator, dispatched on its kind: a
`CombinerStatsGenerator` (accumulator type `A`), a `TransformStatsGenerator`,
or any other object (which fails the `isinstance` checks). -/
inductive StatsGenerator (C A : Type) where
  | combiner (className : String) (create_accumulator : A)
      (add_input : A → ExampleBatch C → A)
      (merge_accumulators : List A → A)
      (extract_output : A → DatasetFeatureStatistics)
  | transform (className : String)
  | other (className : String)

/-- `isinstance(generator, stats_generator.CombinerStatsGenerator)`. -/
def StatsGenerator.isCombiner {C A : Type} : StatsGenerator C A → Bool
  | .combiner _ _ _ _ _ => true
  | _ => false

/-- `generator.__class__.__name__`, used in the raised error messages. -/
def StatsGenerator.className {C A : Type} : StatsGenerator C A → String
  | .combiner n _ _ _ _ => n
  | .transform n => n
  | .other n => n

/-- `_filter_features`: keep only the whitelisted features of a batch, guarded
so that whitelist names absent from the batch are silently skipped. -/
def _filter_features {C : Type} (batch : ExampleBatch C)
    (feature_whitelist : List String) : ExampleBatch C :=
  feature_whitelist.filterMap
    (fun feature_name => (batch.lookup feature_name).map (fun c => (feature_name, c)))

/-- An input example: a dict from feature name to its value list. -/
abbrev Example (W : Type) := List (String × List W)

/-- Modelled from the spec: `batch_util.merge_single_batch` (the Batch
Adapter's single-batch path, whose code is not under src/) builds exactly one
batch containing the whole input: every feature name occurring in any example
maps to a column with one entry per example, holding that example's value list
or marking it absent. -/
def merge_single_batch {W : Type} (examples : List (Example W)) :
    ExampleBatch (List (Option (List W))) :=
  (dedupFO ((examples.flatten).map (fun kv => kv.1))).map
    (fun n => (n, examples.map (fun ex => ex.lookup n)))

/-- The whitelist filtering inside `generate_statistics_in_memory`: the dict
comprehension looks every whitelisted name up in the batch without a guard, so
the first name absent from the batch raises a `KeyError`. -/
def applyWhitelistInMemory {C : Type} :
    ExampleBatch C → List String → Except StatsError (ExampleBatch C)
  | _, [] => Except.ok []
  | batch, feature_name :: rest =>
      match batch.lookup feature_name with
      | none => Except.error (StatsError.keyError feature_name)
      | some column =>
          (applyWhitelistInMemory batch rest).map
            (fun r => (feature_name, column) :: r)

/-- The validation loop of `generate_statistics_in_memory` over
`options.generators`: append each user-supplied generator that is a
`CombinerStatsGenerator`, and raise a `TypeError` naming the class of the
first one that is not. -/
def addCustomGenerators {C A : Type} (acc : List (StatsGenerator C A)) :
    List (StatsGenerator C A) → Except StatsError (List (StatsGenerator C A))
  | [] => Except.ok acc
  | g :: rest =>
      if g.isCombiner then addCustomGenerators (acc ++ [g]) rest
      else Except.error (StatsError.typeMismatch g.className)

/-- The output list comprehension of `generate_statistics_in_memory`:
`generator.extract_output(generator.add_input(generator.create_accumulator(),
batch))` for each generator; a non-combiner at this point fails (in Python it
lacks the accumulator methods). -/
def runGeneratorsInMemory {C A : Type} :
    List (StatsGenerator C A) → ExampleBatch C →
    Except StatsError (List DatasetFeatureStatistics)
  | [], _ => Except.ok []
  | g :: rest, batch =>
      match g with
      | .combiner _ create add _ extract =>
          (runGeneratorsInMemory rest batch).map
            (fun l => extract (add create batch) :: l)
      | g' => Except.error (StatsError.typeMismatch g'.className)

/-- The options consumed by `generate_statistics_in_memory` (the remaining
`StatsOptions` fields only tune the construction of the default generators,
which the embedding takes as a parameter). -/
structure StatsOptions (C A : Type) where
  generators : Option (List (StatsGenerator C A))
  feature_whitelist : Option (List String)

/-- `generate_statistics_in_memory`.  The four default combiner generators are
built from classes outside src/, so the embedding takes the constructed list
as the parameter `default_generators`; the function then validates the
user-supplied generators, builds the single batch, applies the (unguarded)
whitelist filter, runs every generator synchronously, and merges the outputs. -/
def generate_statistics_in_memory {W A : Type}
    (default_generators : List (StatsGenerator (List (Option (List W))) A))
    (examples : List (Example W))
    (options : StatsOptions (List (Option (List W))) A) :
    Except StatsError DatasetFeatureStatisticsList := do
  let stats_generators ←
    match options.generators with
    | none => Except.ok default_generators
    | some gs => addCustomGenerators default_generators gs
  let batch := merge_single_batch examples
  let batch ←
    match options.feature_whitelist with
    | none => Except.ok batch
    | some wl =>
        if wl.isEmpty then Except.ok batch
        else applyWhitelistInMemory batch wl
  let outputs ← runGeneratorsInMemory stats_generators batch
  Except.ok (_make_dataset_feature_statistics_list_proto
    (_merge_dataset_feature_stats_protos outputs).1)

/-- A stored position is in range of the heap view. -/
def MergeState.validPos (st : MergeState) (p : Nat × Nat) : Prop :=
  p.1 < st.view.length ∧ p.2 < (st.view.getD p.1 []).length

/-- Invariant of the dict-building loop after processing the feature protos
whose names are `names`, in order: the dict keys are the processed names
de-duplicated in first-occurrence order; every stored position is in range;
distinct dict entries store distinct positions (each proto object is stored
under at most one key); and the proto at a stored position still carries its
key as its name. -/
structure MergeInv (names : List String) (st : MergeState) : Prop where
  keys_eq : st.stats_per_feature.map (fun e => e.1) = dedupFO names
  valid : ∀ e ∈ st.stats_per_feature, st.validPos e.2
  distinct : (st.stats_per_feature.map (fun e => e.2)).Pairwise (fun p q => p ≠ q)
  name_at : ∀ e ∈ st.stats_per_feature, (st.getAt e.2.1 e.2.2).name = e.1

/-! ### Basic list lemmas -/

theorem length_modifyAt {α : Type} (l : List α) (j : Nat) (f : α → α) :
    (modifyAt l j f).length = l.length := by
  induction l generalizing j with
  | nil => rfl
  | cons a t ih =>
    cases j with
    | zero => rfl
    | succ j => simp [modifyAt, ih]

theorem getD_modifyAt_ne {α : Type} (l : List α) (j j' : Nat) (f : α → α) (d : α)
    (h : j' ≠ j) : (modifyAt l j f).getD j' d = l.getD j' d := by
  induction l generalizing j j' with
  | nil => rfl
  | cons a t ih =>
    cases j with
    | zero =>
      cases j' with
      | zero => exact absurd rfl h
      | succ j' => rfl
    | succ j =>
      cases j' with
      | zero => rfl
      | succ j' =>
        simpa [modifyAt] using ih j j' (fun hh => h (by rw [hh]))

theorem getD_modifyAt_self {α : Type} (l : List α) (j : Nat) (f : α → α) (d : α)
    (h : j < l.length) : (modifyAt l j f).getD j d = f (l.getD j d) := by
  induction l generalizing j with
  | nil => exact absurd h (by simp)
  | cons a t ih =>
    cases j with
    | zero => rfl
    | succ j =>
      simpa [modifyAt] using ih j (by simpa using h)

theorem modifyAt_append_left {α : Type} (l₁ l₂ : List α) (j : Nat) (f : α → α)
    (h : j < l₁.length) : modifyAt (l₁ ++ l₂) j f = modifyAt l₁ j f ++ l₂ := by
  induction l₁ generalizing j with
  | nil => exact absurd h (by simp)
  | cons a t ih =>
    cases j with
    | zero => rfl
    | succ j =>
      simp [modifyAt, ih j (by simpa using h)]

theorem modifyAt_append_last {α : Type} (l : List α) (a : α) (f : α → α) :
    modifyAt (l ++ [a]) l.length f = l ++ [f a] := by
  induction l with
  | nil => rfl
  | cons b t ih => simp [modifyAt, ih]

theorem getD_append_lt {α : Type} (l₁ l₂ : List α) (j : Nat) (d : α)
    (h : j < l₁.length) : (l₁ ++ l₂).getD j d = l₁.getD j d := by
  induction l₁ generalizing j with
  | nil => exact absurd h (by simp)
  | cons a t ih =>
    cases j with
    | zero => rfl
    | succ j => simpa using ih j (by simpa using h)

theorem getD_concat_self {α : Type} (l : List α) (a : α) (d : α) :
    (l ++ [a]).getD l.length d = a := by
  induction l with
  | nil => rfl
  | cons b t ih => exact ih

theorem lookup_mem {β : Type} (l : List (String × β)) (n : String) (v : β)
    (h : l.lookup n = some v) : (n, v) ∈ l := by
  induction l with
  | nil => simp [List.lookup] at h
  | cons p t ih =>
    rw [List.lookup] at h
    by_cases hn : n == p.1
    · simp only [hn] at h
      have : n = p.1 := by
        have := hn
        simpa [beq_iff_eq] using this
      cases h
      rw [this]
      exact List.mem_cons_self _ _
    · simp only [Bool.not_eq_true] at hn
      rw [hn] at h
      exact List.mem_cons_of_mem _ (ih h)

theorem lookup_eq_none_iff {β : Type} (l : List (String × β)) (n : String) :
    l.lookup n = none ↔ n ∉ l.map (fun p => p.1) := by
  induction l with
  | nil => simp [List.lookup]
  | cons p t ih =>
    rw [List.lookup]
    by_cases hn : n = p.1
    · subst hn
      simp
    · have hb : (n == p.1) = false := by simpa [beq_eq_false_iff_ne] using hn
      rw [hb]
      simp [ih, hn]

theorem nodup_map_inj {α β : Type} (f : α → β) (l : List α)
    (h : (l.map f).Pairwise (fun a b => a ≠ b)) :
    ∀ a ∈ l, ∀ b ∈ l, f a = f b → a = b := by
  induction l with
  | nil => intro a ha; simp at ha
  | cons x t ih =>
    rw [List.map_cons, List.pairwise_cons] at h
    intro a ha b hb hf
    rcases List.mem_cons.mp ha with ha' | ha' <;>
      rcases List.mem_cons.mp hb with hb' | hb'
    · rw [ha', hb']
    · subst ha'
      exact absurd hf (h.1 _ (List.mem_map_of_mem f hb'))
    · subst hb'
      exact absurd hf.symm (h.1 _ (List.mem_map_of_mem f ha'))
    · exact ih h.2 a ha' b hb' hf

/-! ### Lemmas about first-occurrence de-duplication -/

theorem mem_foldl_insertName (l acc : List String) (n : String) :
    n ∈ l.foldl insertName acc ↔ n ∈ acc ∨ n ∈ l := by
  induction l generalizing acc with
  | nil => simp
  | cons a t ih =>
    rw [List.foldl_cons, ih]
    unfold insertName
    by_cases ha : a ∈ acc
    · simp only [if_pos ha]
      constructor
      · rintro (h | h)
        · exact Or.inl h
        · exact Or.inr (List.mem_cons_of_mem _ h)
      · rintro (h | h)
        · exact Or.inl h
        · rcases List.mem_cons.mp h with rfl | h
          · exact Or.inl ha
          · exact Or.inr h
    · simp only [if_neg ha, List.mem_append, List.mem_singleton, List.mem_cons]
      tauto

theorem nodup_foldl_insertName (l acc : List String) (h : acc.Nodup) :
    (l.foldl insertName acc).Nodup := by
  induction l generalizing acc with
  | nil => simpa
  | cons a t ih =>
    rw [List.foldl_cons]
    apply ih
    unfold insertName
    by_cases ha : a ∈ acc
    · simpa [if_pos ha]
    · rw [if_neg ha]
      simpa [List.nodup_append] using ⟨h, ha⟩

theorem mem_dedupFO (l : List String) (n : String) :
    n ∈ dedupFO l ↔ n ∈ l := by
  unfold dedupFO
  rw [mem_foldl_insertName]
  simp

theorem nodup_dedupFO (l : List String) : (dedupFO l).Nodup :=
  nodup_foldl_insertName l [] List.nodup_nil

/-! ### Lemmas about the merge-loop state -/

theorem procFeature_insert (st : MergeState) (fsp : FeatureNameStatistics)
    (h : st.stats_per_feature.lookup fsp.name = none) :
    procFeature st fsp =
      MergeState.pushCur
        { st with stats_per_feature := st.stats_per_feature ++
            [(fsp.name, st.donePrev.length, st.doneCur.length)] } fsp := by
  unfold procFeature
  rw [h]

theorem procFeature_merge (st : MergeState) (fsp : FeatureNameStatistics)
    (i j : Nat) (h : st.stats_per_feature.lookup fsp.name = some (i, j)) :
    procFeature st fsp =
      MergeState.pushCur (st.mutateAt i j (fun t => t.MergeFrom fsp)) fsp := by
  unfold procFeature
  rw [h]

theorem view_length (st : MergeState) :
    st.view.length = st.donePrev.length + 1 := by
  simp [MergeState.view]

theorem view_getD_cur (st : MergeState) :
    st.view.getD st.donePrev.length [] = st.doneCur :=
  getD_concat_self st.donePrev st.doneCur []

theorem view_mutateAt (st : MergeState) (i j : Nat)
    (f : FeatureNameStatistics → FeatureNameStatistics) (hi : i < st.view.length) :
    (st.mutateAt i j f).view = modifyAt st.view i (fun fs => modifyAt fs j f) := by
  have hv : st.view.length = st.donePrev.length + 1 := view_length st
  by_cases h : i < st.donePrev.length
  · simp only [MergeState.mutateAt, if_pos h, MergeState.view]
    rw [modifyAt_append_left _ _ _ _ h]
  · have he : i = st.donePrev.length := by rw [hv] at hi; omega
    simp only [MergeState.mutateAt, if_neg h, MergeState.view]
    subst he
    rw [modifyAt_append_last]

theorem stats_mutateAt (st : MergeState) (i j : Nat)
    (f : FeatureNameStatistics → FeatureNameStatistics) :
    (st.mutateAt i j f).stats_per_feature = st.stats_per_feature := by
  unfold MergeState.mutateAt
  split <;> rfl

theorem donePrev_mutateAt_length (st : MergeState) (i j : Nat)
    (f : FeatureNameStatistics → FeatureNameStatistics) :
    (st.mutateAt i j f).donePrev.length = st.donePrev.length := by
  unfold MergeState.mutateAt
  split <;> simp [length_modifyAt]

theorem doneCur_mutateAt_length (st : MergeState) (i j : Nat)
    (f : FeatureNameStatistics → FeatureNameStatistics) :
    (st.mutateAt i j f).doneCur.length = st.doneCur.length := by
  unfold MergeState.mutateAt
  split <;> simp [length_modifyAt]

theorem view_pushCur (st : MergeState) (fsp : FeatureNameStatistics) :
    (st.pushCur fsp).view =
      modifyAt st.view st.donePrev.length (fun fs => fs ++ [fsp]) := by
  show st.donePrev ++ [st.doneCur ++ [fsp]] = _
  rw [show st.view = st.donePrev ++ [st.doneCur] from rfl, modifyAt_append_last]

theorem view_mutateAt_length (st : MergeState) (i j : Nat)
    (f : FeatureNameStatistics → FeatureNameStatistics) (hi : i < st.view.length) :
    (st.mutateAt i j f).view.length = st.view.length := by
  rw [view_mutateAt st i j f hi, length_modifyAt]

theorem view_pushCur_length (st : MergeState) (fsp : FeatureNameStatistics) :
    (st.pushCur fsp).view.length = st.view.length := by
  rw [view_pushCur, length_modifyAt]

theorem getAt_mutateAt_ne (st : MergeState) (i j : Nat)
    (f : FeatureNameStatistics → FeatureNameStatistics) (i' j' : Nat)
    (hi : i < st.view.length) (hne : (i', j') ≠ (i, j)) :
    (st.mutateAt i j f).getAt i' j' = st.getAt i' j' := by
  unfold MergeState.getAt
  rw [view_mutateAt st i j f hi]
  by_cases h : i' = i
  · subst h
    have hj : j' ≠ j := by
      intro hh
      exact hne (by rw [hh])
    rw [getD_modifyAt_self _ _ _ _ hi]
    exact getD_modifyAt_ne _ _ _ _ _ hj
  · rw [getD_modifyAt_ne _ _ _ _ _ h]

theorem getAt_mutateAt_self (st : MergeState) (i j : Nat)
    (f : FeatureNameStatistics → FeatureNameStatistics)
    (hi : i < st.view.length) (hj : j < (st.view.getD i []).length) :
    (st.mutateAt i j f).getAt i j = f (st.getAt i j) := by
  unfold MergeState.getAt
  rw [view_mutateAt st i j f hi, getD_modifyAt_self _ _ _ _ hi]
  exact getD_modifyAt_self _ _ _ _ hj

theorem posLen_mutateAt (st : MergeState) (i j : Nat)
    (f : FeatureNameStatistics → FeatureNameStatistics) (i' : Nat)
    (hi : i < st.view.length) :
    ((st.mutateAt i j f).view.getD i' []).length = (st.view.getD i' []).length := by
  rw [view_mutateAt st i j f hi]
  by_cases h : i' = i
  · subst h
    rw [getD_modifyAt_self _ _ _ _ hi, length_modifyAt]
  · rw [getD_modifyAt_ne _ _ _ _ _ h]

theorem getAt_pushCur_valid (st : MergeState) (fsp : FeatureNameStatistics)
    (i j : Nat) (hj : j < (st.view.getD i []).length) :
    (st.pushCur fsp).getAt i j = st.getAt i j := by
  unfold MergeState.getAt
  rw [view_pushCur]
  by_cases h : i = st.donePrev.length
  · subst h
    rw [getD_modifyAt_self _ _ _ _ (by rw [view_length]; omega)]
    exact getD_append_lt _ _ _ _ hj
  · rw [getD_modifyAt_ne _ _ _ _ _ h]

theorem getAt_pushCur_new (st : MergeState) (fsp : FeatureNameStatistics) :
    (st.pushCur fsp).getAt st.donePrev.length st.doneCur.length = fsp := by
  show (((st.donePrev ++ [st.doneCur ++ [fsp]]).getD st.donePrev.length []).getD
    st.doneCur.length _) = fsp
  rw [getD_concat_self, getD_concat_self]

theorem posLen_pushCur (st : MergeState) (fsp : FeatureNameStatistics) (i : Nat) :
    ((st.pushCur fsp).view.getD i []).length =
      if i = st.donePrev.length then st.doneCur.length + 1
      else (st.view.getD i []).length := by
  rw [view_pushCur]
  by_cases h : i = st.donePrev.length
  · subst h
    rw [if_pos rfl, getD_modifyAt_self _ _ _ _ (by rw [view_length]; omega),
      view_getD_cur]
    simp
  · rw [if_neg h, getD_modifyAt_ne _ _ _ _ _ h]

theorem view_rollReport (st : MergeState) :
    st.rollReport.view = st.view ++ [[]] := by
  show (st.donePrev ++ [st.doneCur]) ++ [[]] = _
  rfl

theorem getAt_rollReport (st : MergeState) (i j : Nat) (hi : i < st.view.length) :
    st.rollReport.getAt i j = st.getAt i j := by
  unfold MergeState.getAt
  rw [view_rollReport, getD_append_lt _ _ _ _ hi]

theorem posLen_rollReport (st : MergeState) (i : Nat) (hi : i < st.view.length) :
    (st.rollReport.view.getD i []).length = (st.view.getD i []).length := by
  rw [view_rollReport, getD_append_lt _ _ _ _ hi]

theorem dedupFO_append_singleton (names : List String) (n : String) :
    dedupFO (names ++ [n]) = insertName (dedupFO names) n := by
  unfold dedupFO
  rw [List.foldl_append]
  rfl

/-! ### The merge-loop invariant -/

theorem MergeFrom_name_of_eq (t s : FeatureNameStatistics) (h : t.name = s.name) :
    (t.MergeFrom s).name = s.name := by
  show (if s.name = "" then t.name else s.name) = s.name
  by_cases he : s.name = ""
  · rw [if_pos he, h]
  · rw [if_neg he]

theorem mergeInv_procFeature (names : List String) (st : MergeState)
    (fsp : FeatureNameStatistics) (h : MergeInv names st) :
    MergeInv (names ++ [fsp.name]) (procFeature st fsp) := by
  cases hl : st.stats_per_feature.lookup fsp.name with
  | none =>
    rw [procFeature_insert st fsp hl]
    have hnotin : fsp.name ∉ dedupFO names := by
      rw [← h.keys_eq]
      exact (lookup_eq_none_iff _ _).mp hl
    refine ⟨?_, ?_, ?_, ?_⟩
    · show (st.stats_per_feature ++
        [(fsp.name, st.donePrev.length, st.doneCur.length)]).map (fun e => e.1) =
          dedupFO (names ++ [fsp.name])
      rw [dedupFO_append_singleton, insertName, if_neg hnotin, List.map_append,
        h.keys_eq]
      rfl
    · intro e he
      show e.2.1 < (st.pushCur fsp).view.length ∧
        e.2.2 < ((st.pushCur fsp).view.getD e.2.1 []).length
      rcases List.mem_append.mp he with he' | he'
      · rcases h.valid e he' with ⟨h1, h2⟩
        constructor
        · rw [view_pushCur_length]
          exact h1
        · rw [posLen_pushCur]
          by_cases hc : e.2.1 = st.donePrev.length
          · rw [if_pos hc]
            rw [hc, view_getD_cur] at h2
            omega
          · rw [if_neg hc]
            exact h2
      · rcases List.mem_singleton.mp he' with rfl
        constructor
        · rw [view_pushCur_length, view_length]
          show st.donePrev.length < st.donePrev.length + 1
          omega
        · rw [posLen_pushCur]
          show st.doneCur.length < if st.donePrev.length = st.donePrev.length
            then st.doneCur.length + 1 else (st.view.getD st.donePrev.length []).length
          rw [if_pos rfl]
          omega
    · show ((st.stats_per_feature ++
        [(fsp.name, st.donePrev.length, st.doneCur.length)]).map
          (fun e => e.2)).Pairwise (fun p q => p ≠ q)
      rw [List.map_append, List.pairwise_append]
      refine ⟨h.distinct, List.pairwise_singleton _ _, ?_⟩
      intro a ha b hb
      rcases List.mem_map.mp ha with ⟨e, he, rfl⟩
      rcases List.mem_singleton.mp hb with rfl
      rcases h.valid e he with ⟨h1, h2⟩
      intro heq
      have hfst : e.2.1 = st.donePrev.length := congrArg Prod.fst heq
      have hsnd : e.2.2 = st.doneCur.length := congrArg Prod.snd heq
      rw [hfst, view_getD_cur] at h2
      omega
    · intro e he
      rcases List.mem_append.mp he with he' | he'
      · have hval := h.valid e he'
        have heq : (MergeState.pushCur { st with stats_per_feature :=
            st.stats_per_feature ++
              [(fsp.name, st.donePrev.length, st.doneCur.length)] } fsp).getAt
            e.2.1 e.2.2 = st.getAt e.2.1 e.2.2 :=
          getAt_pushCur_valid _ fsp e.2.1 e.2.2 hval.2
        rw [heq]
        exact h.name_at e he'
      · rcases List.mem_singleton.mp he' with rfl
        have heq : (MergeState.pushCur { st with stats_per_feature :=
            st.stats_per_feature ++
              [(fsp.name, st.donePrev.length, st.doneCur.length)] } fsp).getAt
            st.donePrev.length st.doneCur.length = fsp :=
          getAt_pushCur_new _ fsp
        exact congrArg FeatureNameStatistics.name heq
  | some p =>
    obtain ⟨i, j⟩ := p
    rw [procFeature_merge st fsp i j hl]
    have hmem : (fsp.name, i, j) ∈ st.stats_per_feature := lookup_mem _ _ _ hl
    obtain ⟨hi, hj⟩ := h.valid _ hmem
    have hmemkeys : fsp.name ∈ dedupFO names := by
      rw [← h.keys_eq]
      exact List.mem_map_of_mem (fun e => e.1) hmem
    have hstats : (MergeState.pushCur
        (st.mutateAt i j (fun t => t.MergeFrom fsp)) fsp).stats_per_feature =
        st.stats_per_feature := stats_mutateAt st i j _
    refine ⟨?_, ?_, ?_, ?_⟩
    · rw [hstats, dedupFO_append_singleton, insertName, if_pos hmemkeys,
        h.keys_eq]
    · intro e he
      rw [hstats] at he
      rcases h.valid e he with ⟨h1, h2⟩
      show e.2.1 < _ ∧ e.2.2 < _
      constructor
      · rw [view_pushCur_length, view_mutateAt_length st i j _ hi]
        exact h1
      · rw [posLen_pushCur, donePrev_mutateAt_length, doneCur_mutateAt_length]
        by_cases hc : e.2.1 = st.donePrev.length
        · rw [if_pos hc]
          rw [hc, view_getD_cur] at h2
          omega
        · rw [if_neg hc]
          rw [posLen_mutateAt st i j _ e.2.1 hi]
          exact h2
    · rw [hstats]
      exact h.distinct
    · intro e he
      rw [hstats] at he
      rcases h.valid e he with ⟨h1, h2⟩
      have hpush : (MergeState.pushCur
          (st.mutateAt i j (fun t => t.MergeFrom fsp)) fsp).getAt e.2.1 e.2.2 =
          (st.mutateAt i j (fun t => t.MergeFrom fsp)).getAt e.2.1 e.2.2 := by
        apply getAt_pushCur_valid
        rw [posLen_mutateAt st i j _ e.2.1 hi]
        exact h2
      rw [hpush]
      by_cases hc : e.2 = (i, j)
      · have hee : e = (fsp.name, i, j) :=
          nodup_map_inj (fun e => e.2) st.stats_per_feature h.distinct e he
            (fsp.name, i, j) hmem hc
        have h21 : e.2.1 = i := congrArg Prod.fst hc
        have h22 : e.2.2 = j := congrArg Prod.snd hc
        rw [h21, h22, getAt_mutateAt_self st i j _ hi hj]
        rw [MergeFrom_name_of_eq _ _ (h.name_at _ hmem)]
        rw [hee]
      · have hne : (e.2.1, e.2.2) ≠ (i, j) := by
          intro hh
          exact hc hh
        rw [getAt_mutateAt_ne st i j _ e.2.1 e.2.2 hi hne]
        exact h.name_at e he

theorem mergeInv_foldl_features (features : List FeatureNameStatistics)
    (names : List String) (st : MergeState) (h : MergeInv names st) :
    MergeInv (names ++ features.map (fun e => e.name))
      (features.foldl procFeature st) := by
  induction features generalizing names st with
  | nil => simpa using h
  | cons f fs ih =>
    rw [List.foldl_cons]
    have := ih (names ++ [f.name]) (procFeature st f)
      (mergeInv_procFeature names st f h)
    simpa [List.append_assoc] using this

theorem mergeInv_rollReport (names : List String) (st : MergeState)
    (h : MergeInv names st) : MergeInv names st.rollReport := by
  refine ⟨h.keys_eq, ?_, h.distinct, ?_⟩
  · intro e he
    rcases h.valid e he with ⟨h1, h2⟩
    show e.2.1 < st.rollReport.view.length ∧
      e.2.2 < (st.rollReport.view.getD e.2.1 []).length
    constructor
    · rw [view_rollReport, List.length_append]
      simp only [List.length_singleton]
      omega
    · rw [posLen_rollReport st e.2.1 h1]
      exact h2
  · intro e he
    rw [getAt_rollReport st e.2.1 e.2.2 (h.valid e he).1]
    exact h.name_at e he

theorem mergeInv_procReport (names : List String) (st : MergeState)
    (features : List FeatureNameStatistics) (h : MergeInv names st) :
    MergeInv (names ++ features.map (fun e => e.name)) (procReport st features) :=
  mergeInv_rollReport _ _ (mergeInv_foldl_features features names st h)

theorem mergeInv_foldl_reports (fls : List (List FeatureNameStatistics))
    (names : List String) (st : MergeState) (h : MergeInv names st) :
    MergeInv (names ++ fls.flatten.map (fun e => e.name))
      (fls.foldl procReport st) := by
  induction fls generalizing names st with
  | nil => simpa using h
  | cons fs rest ih =>
    rw [List.foldl_cons]
    have := ih (names ++ fs.map (fun e => e.name)) (procReport st fs)
      (mergeInv_procReport names st fs h)
    simpa [List.append_assoc] using this

theorem mergeInv_mergeLoop (fls : List (List FeatureNameStatistics)) :
    MergeInv (fls.flatten.map (fun e => e.name)) (mergeLoop fls) := by
  have hinit : MergeInv []
      { donePrev := [], doneCur := [], stats_per_feature := [] } := by
    refine ⟨rfl, ?_, ?_, ?_⟩
    · intro e he
      simp at he
    · exact List.Pairwise.nil
    · intro e he
      simp at he
  have := mergeInv_foldl_reports fls []
    { donePrev := [], doneCur := [], stats_per_feature := [] } hinit
  simpa [mergeLoop] using this

theorem mergedFeatureValues_names (names : List String) (st : MergeState)
    (h : MergeInv names st) :
    (mergedFeatureValues st).map (fun e => e.name) = dedupFO names := by
  unfold mergedFeatureValues
  rw [List.map_map, ← h.keys_eq]
  exact List.map_congr_left (fun e he => h.name_at e he)

/-! ### The second (result-building) loop -/

theorem foldl_mergeFinalizeStep_fst (vals : List FeatureNameStatistics)
    (p : List FeatureNameStatistics × Option Nat) :
    (vals.foldl mergeFinalizeStep p).1 = p.1 ++ vals := by
  induction vals generalizing p with
  | nil => simp
  | cons v rest ih =>
    rw [List.foldl_cons, ih]
    show (p.1 ++ [v]) ++ rest = p.1 ++ v :: rest
    simp

theorem mergeFinalizeStep_snd_some (p : List FeatureNameStatistics × Option Nat)
    (v : FeatureNameStatistics) (n : Nat) (h : p.2 = some n) :
    (mergeFinalizeStep p v).2 = some n := by
  unfold mergeFinalizeStep
  rw [h]

theorem mergeFinalizeStep_snd_none (p : List FeatureNameStatistics × Option Nat)
    (v : FeatureNameStatistics) (h : p.2 = none) :
    (mergeFinalizeStep p v).2 =
      (statsForNumExamples v).map (fun c => c.num_non_missing + c.num_missing) := by
  unfold mergeFinalizeStep
  rw [h]
  cases statsForNumExamples v <;> rfl

theorem foldl_mergeFinalizeStep_snd_some (vals : List FeatureNameStatistics)
    (p : List FeatureNameStatistics × Option Nat) (n : Nat) (h : p.2 = some n) :
    (vals.foldl mergeFinalizeStep p).2 = some n := by
  induction vals generalizing p with
  | nil => simpa using h
  | cons v rest ih =>
    rw [List.foldl_cons]
    exact ih _ (mergeFinalizeStep_snd_some p v n h)

theorem foldl_mergeFinalizeStep_snd_none (vals : List FeatureNameStatistics)
    (p : List FeatureNameStatistics × Option Nat) (h : p.2 = none) :
    (vals.foldl mergeFinalizeStep p).2 =
      (firstCommonStats vals).map (fun c => c.num_non_missing + c.num_missing) := by
  induction vals generalizing p with
  | nil =>
    rw [List.foldl_nil, h]
    rfl
  | cons v rest ih =>
    rw [List.foldl_cons]
    cases hs : statsForNumExamples v with
    | some c =>
      have h2 : (mergeFinalizeStep p v).2 = some (c.num_non_missing + c.num_missing) := by
        rw [mergeFinalizeStep_snd_none p v h, hs]
        rfl
      rw [foldl_mergeFinalizeStep_snd_some rest _ _ h2]
      simp [firstCommonStats, hs]
    | none =>
      have h2 : (mergeFinalizeStep p v).2 = none := by
        rw [mergeFinalizeStep_snd_none p v h, hs]
        rfl
      rw [ih _ h2]
      simp [firstCommonStats, hs]

theorem mergeFinalize_features (vals : List FeatureNameStatistics) :
    (mergeFinalize vals).features = vals := by
  show (vals.foldl mergeFinalizeStep ([], none)).1 = vals
  rw [foldl_mergeFinalizeStep_fst]
  rfl

theorem mergeFinalize_num_examples (vals : List FeatureNameStatistics) :
    (mergeFinalize vals).num_examples =
      (firstCommonStats vals).map (fun c => c.num_non_missing + c.num_missing) := by
  show (vals.foldl mergeFinalizeStep ([], none)).2 = _
  exact foldl_mergeFinalizeStep_snd_none vals ([], none) rfl

/-! ### Characterization of the merged report -/

theorem merge_result_names (stats_protos : List DatasetFeatureStatistics) :
    (_merge_dataset_feature_stats_protos stats_protos).1.features.map
        (fun e => e.name) =
      dedupFO ((stats_protos.map (fun p => p.features)).flatten.map
        (fun e => e.name)) := by
  show (mergeFinalize (mergedFeatureValues
      (mergeLoop (stats_protos.map (fun p => p.features))))).features.map
        (fun e => e.name) = _
  rw [mergeFinalize_features]
  exact mergedFeatureValues_names _ _ (mergeInv_mergeLoop _)

theorem mem_merge_result_names (stats_protos : List DatasetFeatureStatistics)
    (n : String) :
    (n ∈ (_merge_dataset_feature_stats_protos stats_protos).1.features.map
        (fun e => e.name)) ↔
      ∃ p ∈ stats_protos, ∃ e ∈ p.features, e.name = n := by
  rw [merge_result_names, mem_dedupFO]
  constructor
  · intro h
    rcases List.mem_map.mp h with ⟨e, he, rfl⟩
    rcases List.mem_flatten.mp he with ⟨fs, hfs, hefs⟩
    rcases List.mem_map.mp hfs with ⟨p, hp, rfl⟩
    exact ⟨p, hp, e, hefs, rfl⟩
  · rintro ⟨p, hp, e, hee, rfl⟩
    exact List.mem_map_of_mem _
      (List.mem_flatten.mpr ⟨p.features, List.mem_map_of_mem _ hp, hee⟩)

theorem merge_result_names_nodup (stats_protos : List DatasetFeatureStatistics) :
    ((_merge_dataset_feature_stats_protos stats_protos).1.features.map
      (fun e => e.name)).Nodup := by
  rw [merge_result_names]
  exact nodup_dedupFO _

/-! ### The merge loop without name collisions leaves the inputs intact -/

theorem foldl_procFeature_pure (features : List FeatureNameStatistics)
    (st : MergeState)
    (hnodup : (features.map (fun e => e.name)).Nodup)
    (hfresh : ∀ e ∈ features,
      e.name ∉ st.stats_per_feature.map (fun q => q.1)) :
    (features.foldl procFeature st).donePrev = st.donePrev ∧
    (features.foldl procFeature st).doneCur = st.doneCur ++ features ∧
    (features.foldl procFeature st).stats_per_feature.map (fun q => q.1) =
      st.stats_per_feature.map (fun q => q.1) ++
        features.map (fun e => e.name) := by
  induction features generalizing st with
  | nil => simp
  | cons f fs ih =>
    rw [List.foldl_cons]
    have hl : st.stats_per_feature.lookup f.name = none :=
      (lookup_eq_none_iff _ _).mpr (hfresh f (List.mem_cons_self _ _))
    rw [procFeature_insert st f hl]
    rw [List.map_cons, List.nodup_cons] at hnodup
    have hfresh' : ∀ e ∈ fs, e.name ∉
        ((st.stats_per_feature ++
          [(f.name, st.donePrev.length, st.doneCur.length)]).map
            (fun q => q.1)) := by
      intro e he
      rw [List.map_append]
      intro hmem
      rcases List.mem_append.mp hmem with hm | hm
      · exact hfresh e (List.mem_cons_of_mem _ he) hm
      · have : e.name = f.name := List.mem_singleton.mp hm
        exact hnodup.1 (this ▸ List.mem_map_of_mem (fun e => e.name) he)
    obtain ⟨ih1, ih2, ih3⟩ := ih
      (MergeState.pushCur { st with stats_per_feature := st.stats_per_feature ++
        [(f.name, st.donePrev.length, st.doneCur.length)] } f) hnodup.2 hfresh'
    refine ⟨?_, ?_, ?_⟩
    · rw [ih1]
      rfl
    · rw [ih2]
      show (st.doneCur ++ [f]) ++ fs = st.doneCur ++ f :: fs
      simp
    · rw [ih3]
      show (st.stats_per_feature ++
          [(f.name, st.donePrev.length, st.doneCur.length)]).map (fun q => q.1) ++
          fs.map (fun e => e.name) = _
      simp [List.map_append]

theorem foldl_procReport_pure (fls : List (List FeatureNameStatistics))
    (st : MergeState)
    (hnodup : (fls.flatten.map (fun e => e.name)).Nodup)
    (hfresh : ∀ e ∈ fls.flatten,
      e.name ∉ st.stats_per_feature.map (fun q => q.1))
    (hcur : st.doneCur = []) :
    (fls.foldl procReport st).donePrev = st.donePrev ++ fls ∧
    (fls.foldl procReport st).doneCur = [] := by
  induction fls generalizing st with
  | nil => simp [hcur]
  | cons fs rest ih =>
    rw [List.foldl_cons]
    rw [List.flatten_cons, List.map_append, List.nodup_append] at hnodup
    obtain ⟨h1, h2, hdisj⟩ := hnodup
    have hfresh_fs : ∀ e ∈ fs,
        e.name ∉ st.stats_per_feature.map (fun q => q.1) := by
      intro e he
      exact hfresh e (by rw [List.flatten_cons]; exact List.mem_append_left _ he)
    obtain ⟨p1, p2, p3⟩ := foldl_procFeature_pure fs st h1 hfresh_fs
    have hdp : (procReport st fs).donePrev = st.donePrev ++ [fs] := by
      show (fs.foldl procFeature st).donePrev ++
        [(fs.foldl procFeature st).doneCur] = _
      rw [p1, p2, hcur]
      rfl
    have hkeys : (procReport st fs).stats_per_feature.map (fun q => q.1) =
        st.stats_per_feature.map (fun q => q.1) ++ fs.map (fun e => e.name) := by
      show (fs.foldl procFeature st).stats_per_feature.map (fun q => q.1) = _
      exact p3
    have hfresh' : ∀ e ∈ rest.flatten,
        e.name ∉ (procReport st fs).stats_per_feature.map (fun q => q.1) := by
      intro e he
      rw [hkeys]
      intro hmem
      rcases List.mem_append.mp hmem with hm | hm
      · exact hfresh e
          (by rw [List.flatten_cons]; exact List.mem_append_right _ he) hm
      · exact hdisj hm (List.mem_map_of_mem (fun e => e.name) he)
    obtain ⟨q1, q2⟩ := ih (procReport st fs) h2 hfresh' rfl
    refine ⟨?_, q2⟩
    rw [q1, hdp]
    simp

theorem zipWith_features_self (l : List DatasetFeatureStatistics) :
    List.zipWith (fun p fs => { p with features := fs }) l
      (l.map (fun p => p.features)) = l := by
  induction l with
  | nil => rfl
  | cons p t ih =>
    show ({ p with features := p.features } ::
      List.zipWith _ t (t.map (fun p => p.features))) = p :: t
    rw [ih]

theorem merge_pure (stats_protos : List DatasetFeatureStatistics)
    (h : ((stats_protos.map (fun p => p.features)).flatten.map
      (fun e => e.name)).Nodup) :
    (_merge_dataset_feature_stats_protos stats_protos).2 = stats_protos := by
  obtain ⟨hdp, _⟩ := foldl_procReport_pure
    (stats_protos.map (fun p => p.features))
    { donePrev := [], doneCur := [], stats_per_feature := [] } h
    (by intro e he; simp) rfl
  show List.zipWith (fun p fs => { p with features := fs }) stats_protos
    (mergeLoop (stats_protos.map (fun p => p.features))).donePrev = stats_protos
  rw [show (mergeLoop (stats_protos.map (fun p => p.features))).donePrev =
    stats_protos.map (fun p => p.features) from by
      rw [show mergeLoop (stats_protos.map (fun p => p.features)) =
        (stats_protos.map (fun p => p.features)).foldl procReport
          { donePrev := [], doneCur := [], stats_per_feature := [] } from rfl]
      rw [hdp]
      rfl]
  exact zipWith_features_self stats_protos

/-! ### The in-memory path and the feature filters -/

theorem addCustomGenerators_error {C A : Type}
    (gs acc : List (StatsGenerator C A)) (g : StatsGenerator C A)
    (h : gs.find? (fun q => !q.isCombiner) = some g) :
    addCustomGenerators acc gs =
      Except.error (StatsError.typeMismatch g.className) := by
  induction gs generalizing acc with
  | nil => simp at h
  | cons g0 rest ih =>
    by_cases hc : g0.isCombiner = true
    · have hfind : rest.find? (fun q => !q.isCombiner) = some g := by
        rw [List.find?_cons_of_neg _ (by simp [hc])] at h
        exact h
      show (if g0.isCombiner then addCustomGenerators (acc ++ [g0]) rest
        else Except.error (StatsError.typeMismatch g0.className)) = _
      rw [if_pos hc]
      exact ih _ hfind
    · have hfalse : g0.isCombiner = false := by
        revert hc
        cases g0.isCombiner <;> simp
      have hg : g0 = g := by
        rw [List.find?_cons_of_pos _ (by simp [hfalse])] at h
        exact Option.some.inj h
      show (if g0.isCombiner then addCustomGenerators (acc ++ [g0]) rest
        else Except.error (StatsError.typeMismatch g0.className)) = _
      rw [if_neg hc, hg]

theorem generate_statistics_in_memory_typeMismatch {W A : Type}
    (default_generators : List (StatsGenerator (List (Option (List W))) A))
    (examples : List (Example W))
    (options : StatsOptions (List (Option (List W))) A)
    (gs : List (StatsGenerator (List (Option (List W))) A))
    (g : StatsGenerator (List (Option (List W))) A)
    (hgen : options.generators = some gs)
    (hfind : gs.find? (fun q => !q.isCombiner) = some g) :
    generate_statistics_in_memory default_generators examples options =
      Except.error (StatsError.typeMismatch g.className) := by
  unfold generate_statistics_in_memory
  simp only [hgen]
  rw [addCustomGenerators_error gs default_generators g hfind]
  rfl

theorem applyWhitelistInMemory_keyError {C : Type} (batch : ExampleBatch C)
    (wl : List String) (fn : String)
    (h : wl.find? (fun m => (batch.lookup m).isNone) = some fn) :
    applyWhitelistInMemory batch wl = Except.error (StatsError.keyError fn) := by
  induction wl with
  | nil => simp at h
  | cons m rest ih =>
    cases hb : batch.lookup m with
    | none =>
      have hm : m = fn := by
        rw [List.find?_cons_of_pos _ (by simp [hb])] at h
        exact Option.some.inj h
      show (match batch.lookup m with
        | none => Except.error (StatsError.keyError m)
        | some column => (applyWhitelistInMemory batch rest).map
            (fun r => (m, column) :: r)) = _
      rw [hb, hm]
    | some c =>
      have hfind : rest.find? (fun m => (batch.lookup m).isNone) = some fn := by
        rw [List.find?_cons_of_neg _ (by simp [hb])] at h
        exact h
      show (match batch.lookup m with
        | none => Except.error (StatsError.keyError m)
        | some column => (applyWhitelistInMemory batch rest).map
            (fun r => (m, column) :: r)) = _
      rw [hb, ih hfind]
      rfl

theorem filter_features_keys {C : Type} (batch : ExampleBatch C)
    (wl : List String) :
    (_filter_features batch wl).map (fun q => q.1) =
      wl.filter (fun m => (batch.lookup m).isSome) := by
  induction wl with
  | nil => rfl
  | cons m rest ih =>
    unfold _filter_features at ih ⊢
    rw [List.filterMap_cons]
    cases hb : batch.lookup m with
    | none => simp [hb, ih, List.filter_cons]
    | some c => simp [hb, ih, List.filter_cons]

/-! ### Claim theorems -/

/-- Claim C1, counterexample: two partial reports both declare feature `x`,
one tagged numeric and one tagged string.  The claim says
`_merge_dataset_feature_stats_protos` must fail with a `SchemaConflict` error
rather than produce a merged report; in fact the code performs no kind check
and raises nothing — it produces a merged report in which `MergeFrom` has
silently switched the oneof to the later report's string kind. -/
theorem c1_counterexample :
    (_merge_dataset_feature_stats_protos
      [⟨[⟨"x", some (FeatureStats.num ⟨some ⟨1, 0⟩⟩)⟩], none⟩,
       ⟨[⟨"x", some (FeatureStats.str ⟨some ⟨2, 0⟩⟩)⟩], none⟩]).1 =
      ⟨[⟨"x", some (FeatureStats.str ⟨some ⟨2, 0⟩⟩)⟩], some 2⟩ := by
  decide

/-- Claim C1, amended: the merge performs no specialization-kind check and
cannot fail.  When two partial reports carry the same feature name with
mismatched kinds (numeric then string), the merged report contains one entry
for that name whose kind is that of the later report: proto `MergeFrom`
replaces the target's oneof branch by the source's branch (merged into a
fresh message), silently discarding the numeric statistics. -/
theorem c1_amended (n : String) (ns : NumericStatistics) (ss : StringStatistics)
    (d1 d2 : Option Nat) :
    (_merge_dataset_feature_stats_protos
      [⟨[⟨n, some (FeatureStats.num ns)⟩], d1⟩,
       ⟨[⟨n, some (FeatureStats.str ss)⟩], d2⟩]).1.features =
      [⟨n, some (FeatureStats.str (StringStatistics.empty.mergeFrom ss))⟩] := by
  rw [show (_merge_dataset_feature_stats_protos
      [⟨[⟨n, some (FeatureStats.num ns)⟩], d1⟩,
       ⟨[⟨n, some (FeatureStats.str ss)⟩], d2⟩]).1 =
    mergeFinalize (mergedFeatureValues (mergeLoop
      [[⟨n, some (FeatureStats.num ns)⟩],
       [⟨n, some (FeatureStats.str ss)⟩]])) from rfl]
  rw [mergeFinalize_features]
  simp [mergeLoop, procReport, procFeature, List.lookup, MergeState.pushCur,
    MergeState.rollReport, MergeState.mutateAt, modifyAt, mergedFeatureValues,
    MergeState.getAt, MergeState.view, FeatureNameStatistics.MergeFrom,
    ite_self]

/-- Claim C2, counterexample: permuting the list of partial reports changes
the merged report.  Two reports both carry feature `x` with numeric common
stats; `MergeFrom` overwrites scalar counts (last writer wins), so the two
orders give `num_examples` 2 and 1 respectively. -/
theorem c2_counterexample :
    ([⟨[⟨"x", some (FeatureStats.num ⟨some ⟨1, 0⟩⟩)⟩], none⟩,
      ⟨[⟨"x", some (FeatureStats.num ⟨some ⟨2, 0⟩⟩)⟩], none⟩] :
        List DatasetFeatureStatistics).Perm
      [⟨[⟨"x", some (FeatureStats.num ⟨some ⟨2, 0⟩⟩)⟩], none⟩,
       ⟨[⟨"x", some (FeatureStats.num ⟨some ⟨1, 0⟩⟩)⟩], none⟩] ∧
    (_merge_dataset_feature_stats_protos
      [⟨[⟨"x", some (FeatureStats.num ⟨some ⟨1, 0⟩⟩)⟩], none⟩,
       ⟨[⟨"x", some (FeatureStats.num ⟨some ⟨2, 0⟩⟩)⟩], none⟩]).1 ≠
    (_merge_dataset_feature_stats_protos
      [⟨[⟨"x", some (FeatureStats.num ⟨some ⟨2, 0⟩⟩)⟩], none⟩,
       ⟨[⟨"x", some (FeatureStats.num ⟨some ⟨1, 0⟩⟩)⟩], none⟩]).1 :=
  ⟨List.Perm.swap _ _ _, by decide⟩

/-- Claim C2, amended: the merge is not commutative on whole reports (see the
counterexample: per-feature `MergeFrom` is last-writer-wins on scalar fields
and the result's feature order follows first occurrence).  What permutation
invariance does hold is at the level of feature names: permuting the partial
reports preserves exactly which feature names appear in the merged report. -/
theorem c2_amended (l1 l2 : List DatasetFeatureStatistics) (h : l1.Perm l2)
    (n : String) :
    (n ∈ (_merge_dataset_feature_stats_protos l1).1.features.map
        (fun e => e.name)) ↔
      (n ∈ (_merge_dataset_feature_stats_protos l2).1.features.map
        (fun e => e.name)) := by
  rw [mem_merge_result_names, mem_merge_result_names]
  constructor
  · rintro ⟨p, hp, e, he, rfl⟩
    exact ⟨p, h.mem_iff.mp hp, e, he, rfl⟩
  · rintro ⟨p, hp, e, he, rfl⟩
    exact ⟨p, h.mem_iff.mpr hp, e, he, rfl⟩

/-- Witness for the amended claim C2 at a concrete permuted pair. -/
theorem c2_amended_witness :
    ("x" ∈ (_merge_dataset_feature_stats_protos
      [⟨[⟨"x", some (FeatureStats.num ⟨some ⟨1, 0⟩⟩)⟩], none⟩,
       ⟨[⟨"y", some (FeatureStats.str ⟨some ⟨2, 0⟩⟩)⟩], none⟩]).1.features.map
        (fun e => e.name)) ↔
    ("x" ∈ (_merge_dataset_feature_stats_protos
      [⟨[⟨"y", some (FeatureStats.str ⟨some ⟨2, 0⟩⟩)⟩], none⟩,
       ⟨[⟨"x", some (FeatureStats.num ⟨some ⟨1, 0⟩⟩)⟩], none⟩]).1.features.map
        (fun e => e.name)) :=
  c2_amended
    [⟨[⟨"x", some (FeatureStats.num ⟨some ⟨1, 0⟩⟩)⟩], none⟩,
     ⟨[⟨"y", some (FeatureStats.str ⟨some ⟨2, 0⟩⟩)⟩], none⟩]
    [⟨[⟨"y", some (FeatureStats.str ⟨some ⟨2, 0⟩⟩)⟩], none⟩,
     ⟨[⟨"x", some (FeatureStats.num ⟨some ⟨1, 0⟩⟩)⟩], none⟩]
    (List.Perm.swap _ _ _) "x"

/-- Claim C3, counterexample: merging is not free of input mutation.  With two
reports that share feature name `x`, the dict stores a reference to the first
report's entry and `MergeFrom` mutates it in place, so after the merge the
input list differs from its original value. -/
theorem c3_counterexample :
    (_merge_dataset_feature_stats_protos
      [⟨[⟨"x", some (FeatureStats.num ⟨some ⟨1, 0⟩⟩)⟩], none⟩,
       ⟨[⟨"x", some (FeatureStats.num ⟨some ⟨2, 0⟩⟩)⟩], none⟩]).2 ≠
      [⟨[⟨"x", some (FeatureStats.num ⟨some ⟨1, 0⟩⟩)⟩], none⟩,
       ⟨[⟨"x", some (FeatureStats.num ⟨some ⟨2, 0⟩⟩)⟩], none⟩] := by
  decide

/-- Claim C3, amended: `_merge_dataset_feature_stats_protos` leaves its input
reports unchanged only when no feature name occurs in more than one entry
across the inputs; when a name recurs, the first stored entry for it is
mutated in place (see the counterexample). -/
theorem c3_amended (stats_protos : List DatasetFeatureStatistics)
    (h : ((stats_protos.map (fun p => p.features)).flatten.map
      (fun e => e.name)).Nodup) :
    (_merge_dataset_feature_stats_protos stats_protos).2 = stats_protos :=
  merge_pure stats_protos h

/-- Witness for the amended claim C3: with pairwise distinct feature names the
inputs come back unchanged. -/
theorem c3_amended_witness :
    (_merge_dataset_feature_stats_protos
      [⟨[⟨"a", some (FeatureStats.num ⟨some ⟨1, 0⟩⟩)⟩], none⟩,
       ⟨[⟨"b", some (FeatureStats.str ⟨some ⟨2, 0⟩⟩)⟩], none⟩]).2 =
      [⟨[⟨"a", some (FeatureStats.num ⟨some ⟨1, 0⟩⟩)⟩], none⟩,
       ⟨[⟨"b", some (FeatureStats.str ⟨some ⟨2, 0⟩⟩)⟩], none⟩] :=
  c3_amended
    [⟨[⟨"a", some (FeatureStats.num ⟨some ⟨1, 0⟩⟩)⟩], none⟩,
     ⟨[⟨"b", some (FeatureStats.str ⟨some ⟨2, 0⟩⟩)⟩], none⟩]
    (by decide)

/-- Claim C4: the merged report's `num_examples` equals
`num_non_missing + num_missing` taken from the first merged feature entry (in
iteration order) whose common sub-record is present, and is left unset when no
feature entry carries one. -/
theorem c4_num_examples (stats_protos : List DatasetFeatureStatistics) :
    (_merge_dataset_feature_stats_protos stats_protos).1.num_examples =
      (firstCommonStats
        (_merge_dataset_feature_stats_protos stats_protos).1.features).map
        (fun c => c.num_non_missing + c.num_missing) := by
  show (mergeFinalize (mergedFeatureValues (mergeLoop
      (stats_protos.map (fun p => p.features))))).num_examples =
    (firstCommonStats (mergeFinalize (mergedFeatureValues (mergeLoop
      (stats_protos.map (fun p => p.features))))).features).map
      (fun c => c.num_non_missing + c.num_missing)
  rw [mergeFinalize_num_examples, mergeFinalize_features]

/-- Claim C5: when the user-supplied generators contain an entry that is not a
`CombinerStatsGenerator`, `generate_statistics_in_memory` raises a `TypeError`
naming the first offending entry's class, and it does so for every possible
list of examples — the check runs before any example is read or any batch is
built. -/
theorem c5_in_memory_type_check {W A : Type}
    (default_generators : List (StatsGenerator (List (Option (List W))) A))
    (options : StatsOptions (List (Option (List W))) A)
    (gs : List (StatsGenerator (List (Option (List W))) A))
    (g : StatsGenerator (List (Option (List W))) A)
    (hgen : options.generators = some gs)
    (hfind : gs.find? (fun q => !q.isCombiner) = some g) :
    ∀ examples : List (Example W),
      generate_statistics_in_memory default_generators examples options =
        Except.error (StatsError.typeMismatch g.className) :=
  fun examples =>
    generate_statistics_in_memory_typeMismatch default_generators examples
      options gs g hgen hfind

/-- Witness for claim C5: a transform generator among the user-supplied
generators makes the in-memory path fail with the type error naming it. -/
theorem c5_in_memory_type_check_witness :
    generate_statistics_in_memory (W := Nat) (A := Nat) []
      [[("f", [1])]]
      { generators := some [StatsGenerator.transform "MyTransformGenerator"],
        feature_whitelist := none } =
      Except.error (StatsError.typeMismatch "MyTransformGenerator") :=
  c5_in_memory_type_check [] _ [StatsGenerator.transform "MyTransformGenerator"]
    (StatsGenerator.transform "MyTransformGenerator") rfl rfl [[("f", [1])]]

/-- Claim C6: merging an empty list of partial reports yields a report with no
feature entries and `num_examples` unset, and the assembled
`DatasetFeatureStatisticsList` therefore holds one dataset with zero feature
entries. -/
theorem c6_empty_merge :
    (_merge_dataset_feature_stats_protos []).1 =
        { features := [], num_examples := none } ∧
      _make_dataset_feature_statistics_list_proto
          (_merge_dataset_feature_stats_protos []).1 =
        { datasets := [{ features := [], num_examples := none }] } :=
  ⟨rfl, rfl⟩

/-- Claim C7: `_filter_features` is exclusive — a feature name outside the
whitelist never occurs in the filtered batch (so it is never forwarded to a
generator), and, provided every partial report only mentions features present
in the filtered batch, the name never appears in the merged report either. -/
theorem c7_whitelist_exclusive {C : Type} (batch : ExampleBatch C)
    (wl : List String) (n : String) (reports : List DatasetFeatureStatistics)
    (hn : n ∉ wl)
    (hreports : ∀ p ∈ reports, ∀ e ∈ p.features,
      e.name ∈ (_filter_features batch wl).map (fun q => q.1)) :
    ((_filter_features batch wl).lookup n = none) ∧
      n ∉ (_merge_dataset_feature_stats_protos reports).1.features.map
        (fun e => e.name) := by
  have hkeys : ∀ m ∈ (_filter_features batch wl).map (fun q => q.1), m ∈ wl := by
    intro m hm
    rw [filter_features_keys] at hm
    exact List.mem_of_mem_filter hm
  constructor
  · rw [lookup_eq_none_iff]
    intro hmem
    exact hn (hkeys n hmem)
  · intro hmem
    rcases (mem_merge_result_names reports n).mp hmem with ⟨p, hp, e, he, rfl⟩
    exact hn (hkeys e.name (hreports p hp e he))

/-- Witness for claim C7: batch with features A, B, C, whitelist containing A
and C only; B is dropped by the filter and absent from the merged report. -/
theorem c7_whitelist_exclusive_witness :
    ((_filter_features [("A", 1), ("B", 2), ("C", 3)] ["A", "C"]).lookup "B" =
        none) ∧
      "B" ∉ (_merge_dataset_feature_stats_protos
        [⟨[⟨"A", some (FeatureStats.num ⟨some ⟨1, 0⟩⟩)⟩,
           ⟨"C", some (FeatureStats.str ⟨some ⟨1, 0⟩⟩)⟩], none⟩]).1.features.map
          (fun e => e.name) :=
  c7_whitelist_exclusive [("A", 1), ("B", 2), ("C", 3)] ["A", "C"] "B"
    [⟨[⟨"A", some (FeatureStats.num ⟨some ⟨1, 0⟩⟩)⟩,
       ⟨"C", some (FeatureStats.str ⟨some ⟨1, 0⟩⟩)⟩], none⟩]
    (by decide) (by decide)

/-- Claim C8: the merged report contains an entry for a feature name exactly
when some input partial report contains an entry with that name, and it
contains at most one entry per name. -/
theorem c8_union_by_name (stats_protos : List DatasetFeatureStatistics)
    (n : String) :
    ((∃ e ∈ (_merge_dataset_feature_stats_protos stats_protos).1.features,
        e.name = n) ↔
      ∃ p ∈ stats_protos, ∃ e ∈ p.features, e.name = n) ∧
    ((_merge_dataset_feature_stats_protos stats_protos).1.features.map
      (fun e => e.name)).Nodup := by
  refine ⟨?_, merge_result_names_nodup stats_protos⟩
  rw [← mem_merge_result_names stats_protos n]
  exact List.mem_map.symm

/-- Claim C10: in `generate_statistics_in_memory` the whitelist filtering is
an unguarded dict lookup, so the first whitelisted name missing from the batch
raises a `KeyError`; the distributed path's `_filter_features` instead keeps
exactly the whitelist names present in the batch, silently skipping the
missing name, and never raises. -/
theorem c10_whitelist_keyerror {C : Type} (batch : ExampleBatch C)
    (wl : List String) (fn : String)
    (h : wl.find? (fun m => (batch.lookup m).isNone) = some fn) :
    applyWhitelistInMemory batch wl = Except.error (StatsError.keyError fn) ∧
    (_filter_features batch wl).map (fun q => q.1) =
      wl.filter (fun m => (batch.lookup m).isSome) ∧
    fn ∉ (_filter_features batch wl).map (fun q => q.1) := by
  have hfn : batch.lookup fn = none := by
    have hp := List.find?_some h
    simpa using hp
  refine ⟨applyWhitelistInMemory_keyError batch wl fn h,
    filter_features_keys batch wl, ?_⟩
  rw [filter_features_keys]
  intro hmem
  have hs := List.of_mem_filter hmem
  rw [hfn] at hs
  simp at hs

/-- Witness for claim C10: whitelist A, B, C against a batch containing only A
and C — the in-memory filter raises `KeyError` on B while `_filter_features`
keeps A and C. -/
theorem c10_whitelist_keyerror_witness :
    applyWhitelistInMemory [("A", 1), ("C", 3)] ["A", "B", "C"] =
        Except.error (StatsError.keyError "B") ∧
      (_filter_features [("A", 1), ("C", 3)] ["A", "B", "C"]).map
          (fun q => q.1) =
        (["A", "B", "C"].filter
          (fun m => (([("A", 1), ("C", 3)] : ExampleBatch Nat).lookup
            m).isSome)) ∧
      "B" ∉ (_filter_features [("A", 1), ("C", 3)] ["A", "B", "C"]).map
        (fun q => q.1) :=
  c10_whitelist_keyerror [("A", 1), ("C", 3)] ["A", "B", "C"] "B" (by decide)
